import Mathlib

/-!
Verification of the KrakenGate half-duplex radio / VoIP bridge core
(source files mumble_bridge.py and remote_trx.py).

Modelling conventions of the shallow embedding:
- byte strings are `List Nat` (byte values);
- int16 PCM sample blocks are `List Int` (sample values);
- wall-clock timestamps and durations are `ℚ` (seconds);
- audio level estimates (dBFS) are `ℝ`;
- side effects on the hardware PTT line and on thread creation are recorded
  as explicit action lists;
- fallible code paths return `Except`.
-/

namespace KrakenGate

/-! ## Frame flushing (mumble_bridge.py, `_tx_worker`, lines 271-275)

The flush loop `while len(self._accum) >= frame_bytes` repeatedly removes a
`frame_bytes`-long prefix of the byte buffer `self._accum` and hands it to
`sound_output.add_sound`.  It only ever runs with a truthy (nonzero)
`frame_bytes`, because `_compute_frame_bytes_if_ready` leaves
`self._frame_bytes` unset until the encoder reports a nonzero frame size. -/

/-- One run of the flush loop for frame size `n` over buffer `accum`:
returns the emitted whole frames in order, and the remaining buffer. -/
def takeReady (n : Nat) (accum : List Nat) : List (List Nat) × List Nat :=
  if _h : 0 < n ∧ n ≤ accum.length then
    let r := takeReady n (accum.drop n)
    (accum.take n :: r.1, r.2)
  else
    ([], accum)
termination_by accum.length
decreasing_by
  simp only [List.length_drop]
  omega

/-- Conservation: the flush loop emits exactly the bytes of the buffer, in
order, split between the emitted frames and the remainder. -/
theorem takeReady_join (n : Nat) (accum : List Nat) :
    (takeReady n accum).1.flatten ++ (takeReady n accum).2 = accum := by
  rw [takeReady]
  split
  · have ih := takeReady_join n (accum.drop n)
    simp only [List.flatten_cons, List.append_assoc, ih]
    exact List.take_append_drop n accum
  · simp
termination_by accum.length
decreasing_by
  simp only [List.length_drop]
  omega

/-- Every frame emitted by the flush loop has length exactly `n`:
no frame is split or padded. -/
theorem takeReady_frame_len (n : Nat) (accum : List Nat) :
    ∀ f ∈ (takeReady n accum).1, f.length = n := by
  rw [takeReady]
  split
  · rename_i h
    intro f hf
    simp only [List.mem_cons] at hf
    rcases hf with rfl | hf
    · exact List.length_take_of_le h.2
    · exact takeReady_frame_len n (accum.drop n) f hf
  · intro f hf
    simp at hf
termination_by accum.length
decreasing_by
  simp only [List.length_drop]
  omega

/-- Remainder bound: after the flush loop stops, fewer than `n` bytes remain
buffered (for a truthy frame size `n`). -/
theorem takeReady_rem_lt (n : Nat) (accum : List Nat) (hn : 0 < n) :
    (takeReady n accum).2.length < n := by
  rw [takeReady]
  split
  · exact takeReady_rem_lt n (accum.drop n) hn
  · rename_i h
    simp only
    omega
termination_by accum.length
decreasing_by
  simp only [List.length_drop]
  omega

/-! ## Frame Accumulator over a sequence of pushes

`accumStep` is one handling of an incoming chunk by the worker buffer: the
chunk is appended to the buffer (`self._accum.extend`), and when the frame
size is known the flush loop removes all whole frames.  `runAccum` folds a
whole sequence of chunks.  With the frame size unknown the buffer only ever
grows and nothing is emitted. -/

/-- Push one chunk and, when the frame size is known, flush whole frames.
The accumulated result pairs all frames emitted so far with the buffer. -/
def accumStep (frameSize : Option Nat) (acc : List (List Nat) × List Nat)
    (chunk : List Nat) : List (List Nat) × List Nat :=
  match frameSize with
  | none => (acc.1, acc.2 ++ chunk)
  | some n =>
    let r := takeReady n (acc.2 ++ chunk)
    (acc.1 ++ r.1, r.2)

/-- Process a whole sequence of pushed chunks, starting from an empty buffer. -/
def runAccum (frameSize : Option Nat) (chunks : List (List Nat)) :
    List (List Nat) × List Nat :=
  chunks.foldl (accumStep frameSize) ([], [])

/-- Fold invariant for conservation: processing more chunks appends exactly
their bytes to the emitted-frames-plus-buffer concatenation. -/
theorem foldl_accumStep_join (frameSize : Option Nat) (chunks : List (List Nat)) :
    ∀ acc : List (List Nat) × List Nat,
      (chunks.foldl (accumStep frameSize) acc).1.flatten ++
        (chunks.foldl (accumStep frameSize) acc).2 =
      acc.1.flatten ++ acc.2 ++ chunks.flatten := by
  induction chunks with
  | nil => intro acc; simp
  | cons c cs ih =>
    intro acc
    rw [List.foldl_cons, ih (accumStep frameSize acc c)]
    cases frameSize with
    | none => simp [accumStep, List.append_assoc]
    | some n =>
      simp only [accumStep, List.flatten_append, List.flatten_cons,
        List.append_assoc, List.flatten_cons]
      rw [← List.append_assoc ((takeReady n (acc.2 ++ c)).1.flatten)]
      rw [takeReady_join n (acc.2 ++ c)]
      simp [List.append_assoc]

/-- Fold invariant for frame sizes: every frame emitted under a known frame
size `n` has length `n`. -/
theorem foldl_accumStep_len (n : Nat) (chunks : List (List Nat)) :
    ∀ acc : List (List Nat) × List Nat,
      (∀ f ∈ acc.1, f.length = n) →
      ∀ f ∈ (chunks.foldl (accumStep (some n)) acc).1, f.length = n := by
  induction chunks with
  | nil => intro acc h; exact h
  | cons c cs ih =>
    intro acc h
    rw [List.foldl_cons]
    refine ih _ ?_
    intro f hf
    simp only [accumStep, List.mem_append] at hf
    rcases hf with hf | hf
    · exact h f hf
    · exact takeReady_frame_len n (acc.2 ++ c) f hf

/-- With the frame size unknown, the fold never emits a frame and the buffer
is exactly the concatenation of all pushes. -/
theorem foldl_accumStep_none (chunks : List (List Nat)) :
    ∀ acc : List (List Nat) × List Nat,
      (chunks.foldl (accumStep none) acc).1 = acc.1 ∧
      (chunks.foldl (accumStep none) acc).2 = acc.2 ++ chunks.flatten := by
  induction chunks with
  | nil => intro acc; simp
  | cons c cs ih =>
    intro acc
    rw [List.foldl_cons]
    rcases ih (accumStep none acc c) with ⟨h1, h2⟩
    constructor
    · rw [h1]; rfl
    · rw [h2]
      simp [accumStep, List.append_assoc]

/-! ## Bounded audio queues (mumble_bridge.py, lines 87-88, 167-201)

`self._tx_q` and `self._rx_q` are `queue.Queue(maxsize=200)`.  Producers use
`put_nowait`; on `queue.Full` the new frame is discarded and a
"queue full, dropping frame" debug line is logged.  `dropped` counts those
drop (log) events. -/

/-- A bounded FIFO queue of byte frames together with the count of drop
events observed so far. -/
structure BQueue where
  items : List (List Nat)
  dropped : Nat
deriving DecidableEq

/-- Non-blocking enqueue with drop-newest-on-full policy: `put_nowait`
followed by the `except queue.Full` handler that logs one drop event. -/
def enqueue (cap : Nat) (q : BQueue) (frame : List Nat) : BQueue :=
  if q.items.length < cap then
    { q with items := q.items ++ [frame] }
  else
    { q with dropped := q.dropped + 1 }

/-- Exact characterisation of a burst of enqueues with no dequeues: the queue
keeps the first `cap` frames in order and counts one drop per excess frame. -/
theorem foldl_enqueue_char (cap : Nat) (frames : List (List Nat)) :
    ∀ q : BQueue, q.items.length ≤ cap →
      (frames.foldl (enqueue cap) q).items
        = q.items ++ frames.take (cap - q.items.length) ∧
      (frames.foldl (enqueue cap) q).dropped
        = q.dropped + (frames.length - (cap - q.items.length)) := by
  induction frames with
  | nil => intro q hq; simp
  | cons f fs ih =>
    intro q hq
    rw [List.foldl_cons]
    by_cases hlt : q.items.length < cap
    · have hstep : enqueue cap q f = { q with items := q.items ++ [f] } := by
        simp [enqueue, hlt]
      rw [hstep]
      have hlen : (q.items ++ [f]).length ≤ cap := by
        simp only [List.length_append, List.length_cons, List.length_nil]
        omega
      rcases ih { q with items := q.items ++ [f] } hlen with ⟨h1, h2⟩
      constructor
      · rw [h1]
        simp only [List.length_append, List.length_cons, List.length_nil]
        have htake : cap - q.items.length = (cap - (q.items.length + 1)) + 1 := by
          omega
        rw [htake, List.take_succ_cons, List.append_assoc]
        rfl
      · rw [h2]
        simp only [List.length_append, List.length_cons, List.length_nil,
          List.length_cons]
        omega
    · have hstep : enqueue cap q f = { q with dropped := q.dropped + 1 } := by
        simp [enqueue, hlt]
      rw [hstep]
      rcases ih { q with dropped := q.dropped + 1 } hq with ⟨h1, h2⟩
      constructor
      · rw [h1]
        have : cap - q.items.length = 0 := by omega
        simp [this]
      · rw [h2]
        have : cap - q.items.length = 0 := by omega
        simp only [this, Nat.sub_zero, List.length_cons]
        omega

/-! ## send_pcm (mumble_bridge.py, lines 167-190)

`send_pcm` accepts a numpy int16 array or raw bytes; an ndarray is cast to
int16, flattened, and serialised little-endian by `tobytes()`; any other
input type hits the bare `return` in the `else` branch.  The resulting byte
string is enqueued with `put_nowait` on the TX queue (capacity 200). -/

/-- The runtime type of the `pcm` argument of `send_pcm`: a numpy array of
int16 samples, a bytes object, or any other object. -/
inductive Pcm
  | ndarray (samples : List Int)
  | bytes (data : List Nat)
  | other

/-- Little-endian serialisation of one int16 value (numpy `tobytes` after
`astype(np.int16)`, which wraps the value modulo 2^16). -/
def int16ToLEBytes (v : Int) : List Nat :=
  let u := (v % 65536).toNat
  [u % 256, u / 256]

/-- Serialisation of a flattened int16 ndarray by `tobytes()`. -/
def ndarrayToBytes (samples : List Int) : List Nat :=
  (samples.map int16ToLEBytes).flatten

/-- `send_pcm`: serialise (when the input is an ndarray), then non-blocking
enqueue on the TX queue; other input types fall into the `else: return`
branch and leave the queue untouched. -/
def send_pcm (q : BQueue) (pcm : Pcm) : BQueue :=
  match pcm with
  | .ndarray samples => enqueue 200 q (ndarrayToBytes samples)
  | .bytes data => enqueue 200 q data
  | .other => q

/-! ## The TX worker (mumble_bridge.py, `_tx_worker`, lines 250-279)

The worker loop `while not self._shutdown.is_set()` dequeues a chunk,
extends `self._accum`, and computes the frame size.  As written in the
source, the flush loop `while len(self._accum) >= frame_bytes` at line 271
is indented at the same level as the worker loop, so it runs only once the
shutdown flag stops the worker loop; no iteration of the worker loop itself
ever calls `sound_output.add_sound`. -/

/-- Worker state: the byte buffer, the cached frame size
(`self._frame_bytes`, unset until the encoder reports a nonzero size), and
the frames handed to `sound_output.add_sound` so far. -/
structure TxState where
  accum : List Nat
  frameBytes : Option Nat
  sent : List (List Nat)
deriving DecidableEq

/-- `_compute_frame_bytes_if_ready`: keep a cached value; otherwise adopt
the frame size reported by the encoder when it is truthy (nonzero). -/
def computeFrameBytes (encFB : Option Nat) (cached : Option Nat) : Option Nat :=
  match cached with
  | some n => some n
  | none =>
    match encFB with
    | some e => if e ≠ 0 then some e else none
    | none => none

/-- One iteration of the worker loop body on a dequeued chunk, as written in
the source: extend the buffer, refresh the frame size, and send nothing
(the flush loop is outside this loop). -/
def txLoopStep (encFB : Option Nat) (s : TxState) (chunk : List Nat) : TxState :=
  { accum := s.accum ++ chunk,
    frameBytes := computeFrameBytes encFB s.frameBytes,
    sent := s.sent }

/-- The whole worker: process every queued chunk until shutdown, then run
the flush loop once with the frame size left by the last iteration (when
one is set; with no frame size set, line 271 raises and nothing is sent). -/
def txWorkerRun (encFB : Option Nat) (chunks : List (List Nat)) : TxState :=
  let s := chunks.foldl (txLoopStep encFB) ⟨[], none, []⟩
  match s.frameBytes with
  | some n =>
    let r := takeReady n s.accum
    { accum := r.2, frameBytes := some n, sent := s.sent ++ r.1 }
  | none => s

/-! ## PTT transmit gate (remote_trx.py, lines 40-41, 136-164)

Globals `is_transmitting` (initially `False`) and `last_key_time`
(initially `0.0`) form the gate state; both are written under `tx_lock`.
`start_tx` handles a key request; `stop_tx_after_tail` spawns a worker that
sleeps `TAIL_HANG` seconds and then runs a guarded unkey check.  Hardware
and thread side effects are recorded as `Act` values. -/

/-- Observable side effects of the gate code: keying the CM108 PTT line,
unkeying it, and starting the playback thread via `audio_tx_loop()`. -/
inductive Act
  | hwKey
  | hwUnkey
  | startLoop
deriving DecidableEq

/-- The gate state pair: `is_transmitting` and `last_key_time`. -/
structure GateState where
  is_transmitting : Bool
  last_key_time : ℚ
deriving DecidableEq

/-- The module-initialisation state: not transmitting, `last_key_time = 0.0`. -/
def gateInit : GateState := ⟨false, 0⟩

/-- `start_tx` at wall-clock time `now`: when idle, key the PTT line, set
`is_transmitting`, and start the playback loop; in every case refresh
`last_key_time`. Returns the new state and the effects performed. -/
def start_tx (now : ℚ) (s : GateState) : GateState × List Act :=
  if s.is_transmitting = false then
    ({ is_transmitting := true, last_key_time := now }, [Act.hwKey, Act.startLoop])
  else
    ({ s with last_key_time := now }, [])

/-- The guarded check run by the `stop_tx_after_tail` worker when it wakes
at wall-clock time `now` (about `TAIL_HANG` seconds after the unkey
request): unkey only when still transmitting and no key request refreshed
`last_key_time` within the last `T` seconds. -/
def tail_check (T now : ℚ) (s : GateState) : GateState × List Act :=
  if s.is_transmitting = true ∧ T ≤ now - s.last_key_time then
    ({ s with is_transmitting := false }, [Act.hwUnkey])
  else
    (s, [])

/-- A timed gate event: a key request (`start_tx`), or the wake-up of a
tail-hang check worker.  A `request_unkey` at time `u` appears in a trace as
`check (u + T)`, the time its worker wakes after `time.sleep(TAIL_HANG)`. -/
inductive Ev
  | key (t : ℚ)
  | check (t : ℚ)

/-- The wall-clock time at which an event acts on the gate. -/
def Ev.time : Ev → ℚ
  | .key t => t
  | .check t => t

/-- Run one timed event, accumulating timestamped effects. -/
def stepEv (T : ℚ) (p : GateState × List (ℚ × Act)) (e : Ev) :
    GateState × List (ℚ × Act) :=
  match e with
  | .key t =>
    let r := start_tx t p.1
    (r.1, p.2 ++ r.2.map (fun a => (t, a)))
  | .check t =>
    let r := tail_check T t p.1
    (r.1, p.2 ++ r.2.map (fun a => (t, a)))

/-- Run a time-ordered event trace from the module-initialisation state. -/
def runEvents (T : ℚ) (evs : List Ev) : GateState × List (ℚ × Act) :=
  evs.foldl (stepEv T) (gateInit, [])

/-- The gate state at wall-clock time `t`: the result of all events that
have acted at or before `t`. -/
def stateAt (T : ℚ) (evs : List Ev) (t : ℚ) : GateState :=
  (runEvents T (evs.filter (fun e => decide (e.time ≤ t)))).1

/-! ## Playback loop body (remote_trx.py, `audio_tx_loop.play_loop`, lines 108-122)

Each iteration while the gate is keyed dequeues with
`get_received(timeout=0.1)`.  On a truthy (non-`None`, nonempty) chunk it
writes the samples to the output stream and then evaluates
`_dbfs_from_int16(audio.reshape(-1))` — but no name `audio` is defined in
any enclosing scope, so that expression raises `NameError`.  On a falsy
result it sets the level estimate to -100.0 and writes `CHUNK` zero
samples. -/

/-- A python identifier that a statement may reference. -/
inductive PyName
  | audio
deriving DecidableEq

/-- A python runtime error surfaced by the embedding: here, looking up a
name that is not defined in any enclosing scope. -/
inductive PyError
  | nameError (n : PyName)
deriving DecidableEq

/-- One playback-loop iteration: returns the samples written to the output
stream, and either the new TX level estimate or the runtime error raised
while computing it.  `chunkSize` is the configured `CHUNK` block size. -/
def playIter (chunkSize : Nat) (pcm : Option (List Int)) :
    List Int × Except PyError ℝ :=
  match pcm with
  | some arr =>
    if arr.length ≠ 0 then
      (arr, Except.error (PyError.nameError PyName.audio))
    else
      (List.replicate chunkSize 0, Except.ok (-100))
  | none => (List.replicate chunkSize 0, Except.ok (-100))

/-! ## Level estimate (remote_trx.py, `_dbfs_from_int16`, lines 51-57)

RMS of the samples (cast to float) relative to full scale 32767, in dB;
-100.0 for an empty block or zero RMS.  Machine floating point is modelled
by real arithmetic. -/

/-- `_dbfs_from_int16`: dBFS of a block of int16 samples. -/
noncomputable def dbfs_from_int16 (arr : List Int) : ℝ :=
  if arr.length = 0 then -100
  else
    let rms : ℝ :=
      Real.sqrt (((arr.map (fun (v : ℤ) => ((v : ℝ) * (v : ℝ)))).sum) / arr.length)
    if 0 < rms then 20 * Real.logb 10 (rms / 32767) else -100

/-! ## Lock discipline around the gate pair (remote_trx.py, lines 139-164, 177-181)

Which reads of the shared pair (`is_transmitting`, `last_key_time`) happen
inside a `with tx_lock:` block, in program order, per function. -/

/-- The two components of the shared gate pair. -/
inductive GateVar
  | txState
  | lastKeyTime
deriving DecidableEq

/-- A read of one gate variable, tagged with whether `tx_lock` is held. -/
structure GateRead where
  var : GateVar
  underLock : Bool
deriving DecidableEq

/-- Reads performed by `http_status` (lines 177-181): `last_key_time` is
read at line 179, before the `with tx_lock:` block; `is_transmitting` is
read at line 181, inside it. -/
def http_status_reads : List GateRead :=
  [⟨GateVar.lastKeyTime, false⟩, ⟨GateVar.txState, true⟩]

/-- Reads performed by the tail-hang check worker (lines 155-156), both
inside its `with tx_lock:` block. -/
def tail_check_reads : List GateRead :=
  [⟨GateVar.txState, true⟩, ⟨GateVar.lastKeyTime, true⟩]

/-- One interleaving permitted by the code: because the line-179 read of
`last_key_time` is not under `tx_lock`, a concurrent `start_tx` (which
holds the lock for its whole update) may run entirely between the two reads
of `http_status`.  The snapshot then pairs the old `last_key_time` with the
new `is_transmitting`. -/
def snapshotInterleaved (s0 : GateState) (tKey : ℚ) : ℚ × Bool :=
  let lktRead := s0.last_key_time
  let s1 := (start_tx tKey s0).1
  (lktRead, s1.is_transmitting)

/-! ## Helper lemmas for the claim theorems -/

/-- No iteration of the worker loop changes the list of frames handed to
the session: the flush loop sits outside the worker loop. -/
theorem foldl_txLoopStep_sent (encFB : Option Nat) (chunks : List (List Nat)) :
    ∀ s : TxState, (chunks.foldl (txLoopStep encFB) s).sent = s.sent := by
  induction chunks with
  | nil => intro s; rfl
  | cons c cs ih =>
    intro s
    rw [List.foldl_cons, ih]
    rfl

/-! ## Claim theorems -/

/-- Claim C4: for every sequence of byte chunks pushed into the frame
accumulator and every fixed frame size, the concatenation of all whole
frames taken out followed by the remaining buffer equals the concatenation
of all pushed chunks; every emitted frame has exactly the frame-size length
(never split or padded); and when the frame size is unknown no frames are
emitted and the buffer holds every pushed byte. -/
theorem accumulator_conservation (chunks : List (List Nat)) (n : Nat) :
    ((runAccum (some n) chunks).1.flatten ++ (runAccum (some n) chunks).2
      = chunks.flatten)
    ∧ (∀ f ∈ (runAccum (some n) chunks).1, f.length = n)
    ∧ (runAccum none chunks).1 = []
    ∧ (runAccum none chunks).2 = chunks.flatten := by
  refine ⟨?_, ?_, ?_, ?_⟩
  · have h := foldl_accumStep_join (some n) chunks ([], [])
    simpa [runAccum] using h
  · intro f hf
    exact foldl_accumStep_len n chunks ([], []) (by simp) f hf
  · simpa [runAccum] using (foldl_accumStep_none chunks ([], [])).1
  · simpa [runAccum] using (foldl_accumStep_none chunks ([], [])).2

/-- Claim C6: for every burst of enqueues with no dequeues starting from an
empty queue, the queue holds exactly the first 200 frames (so its size
never exceeds the capacity 200) and the drop counter equals the excess of
enqueues over capacity; an enqueue onto a full queue leaves the contents
unchanged and increments the drop counter by one, without blocking. -/
theorem queue_bounded_and_drop_count (frames : List (List Nat)) (q : BQueue)
    (f : List Nat) (hfull : 200 ≤ q.items.length) :
    ((frames.foldl (enqueue 200) ⟨[], 0⟩).items = frames.take 200)
    ∧ ((frames.foldl (enqueue 200) ⟨[], 0⟩).items.length ≤ 200)
    ∧ ((frames.foldl (enqueue 200) ⟨[], 0⟩).dropped = frames.length - 200)
    ∧ ((enqueue 200 q f).items = q.items
        ∧ (enqueue 200 q f).dropped = q.dropped + 1) := by
  have hchar := foldl_enqueue_char 200 frames ⟨[], 0⟩ (by simp)
  refine ⟨?_, ?_, ?_, ?_⟩
  · simpa using hchar.1
  · rw [hchar.1]
    simp only [List.nil_append, List.length_take, List.length_nil, Nat.sub_zero]
    omega
  · simpa using hchar.2
  · have hnlt : ¬ q.items.length < 200 := by omega
    constructor
    · simp [enqueue, hnlt]
    · simp [enqueue, hnlt]

set_option maxRecDepth 4000 in
/-- Witness for claim C6 at a concrete full queue. -/
theorem queue_bounded_and_drop_count_witness :
    (enqueue 200 ⟨List.replicate 200 [], 3⟩ [7]).items = List.replicate 200 []
    ∧ (enqueue 200 ⟨List.replicate 200 [], 3⟩ [7]).dropped = 4 :=
  (queue_bounded_and_drop_count [] ⟨List.replicate 200 [], 3⟩ [7] (by decide)).2.2.2

/-- Claim C10: an input to `send_pcm` that is neither a numpy ndarray nor a
bytes object hits the bare `return`: the call returns normally, enqueues
nothing, and the TX queue (and hence everything downstream, including the
worker buffer and the session) is untouched. -/
theorem send_pcm_other_input_no_effect (q : BQueue) :
    send_pcm q Pcm.other = q := rfl

/-- Claim C7: while the gate is already transmitting, `start_tx` only
refreshes `last_key_time`: it performs no hardware key action and does not
start another playback loop; from idle it keys the PTT line, transitions to
transmitting, and starts the playback loop. -/
theorem request_key_idempotent (s : GateState) (now : ℚ) :
    (s.is_transmitting = true →
      (start_tx now s).1 = { s with last_key_time := now }
      ∧ (start_tx now s).2 = [])
    ∧ (s.is_transmitting = false →
      (start_tx now s).1 = ⟨true, now⟩
      ∧ (start_tx now s).2 = [Act.hwKey, Act.startLoop]) := by
  constructor
  · intro h
    constructor
    · simp [start_tx, h]
    · simp [start_tx, h]
  · intro h
    constructor
    · simp [start_tx, h]
    · simp [start_tx, h]

/-- Witness for claim C7: a key request on an already-keyed gate. -/
theorem request_key_idempotent_witness :
    (start_tx 7 ⟨true, 5⟩).1 = ⟨true, 7⟩ ∧ (start_tx 7 ⟨true, 5⟩).2 = [] :=
  (request_key_idempotent ⟨true, 5⟩ 7).1 rfl

/-- Claim C1 (code bug): with the encoder frame size known (here 4 bytes)
and a whole frame of bytes handed to the worker, the worker loop dispatches
nothing to the session — for every chunk sequence the loop leaves `sent`
empty — and the accumulated bytes are flushed only by the code that runs
after the shutdown flag stops the loop. -/
theorem tx_worker_sends_only_after_shutdown :
    (∀ (encFB : Option Nat) (chunks : List (List Nat)),
      (chunks.foldl (txLoopStep encFB) ⟨[], none, []⟩).sent = [])
    ∧ (([[1, 2, 3, 4]].foldl (txLoopStep (some 4)) ⟨[], none, []⟩).frameBytes
        = some 4)
    ∧ (([[1, 2, 3, 4]].foldl (txLoopStep (some 4)) ⟨[], none, []⟩).accum
        = [1, 2, 3, 4])
    ∧ ((txWorkerRun (some 4) [[1, 2, 3, 4]]).sent = [[1, 2, 3, 4]]) := by
  refine ⟨?_, rfl, rfl, ?_⟩
  · intro encFB chunks
    exact foldl_txLoopStep_sent encFB chunks ⟨[], none, []⟩
  · have h0 : takeReady 4 ([] : List Nat) = ([], []) := by
      rw [takeReady]
      norm_num
    have h1 : takeReady 4 ([1, 2, 3, 4] : List Nat) = ([[1, 2, 3, 4]], []) := by
      rw [takeReady,
        dif_pos (by norm_num : 0 < 4 ∧ 4 ≤ ([1, 2, 3, 4] : List Nat).length)]
      simp [h0]
    simp [txWorkerRun, txLoopStep, computeFrameBytes, h1]

/-- Claim C5 (code bug): when a nonempty frame is dequeued, the playback
iteration writes the frame to the output stream but then raises
`NameError` on the undefined name `audio` instead of updating the TX level
estimate; the timeout path correctly writes a silence block and sets the
estimate to -100. -/
theorem playback_level_update_raises :
    (playIter 1024 (some [5])).1 = [5]
    ∧ (playIter 1024 (some [5])).2
      = Except.error (PyError.nameError PyName.audio)
    ∧ (playIter 1024 none).1 = List.replicate 1024 0
    ∧ (playIter 1024 none).2 = Except.ok (-100) :=
  ⟨rfl, rfl, rfl, rfl⟩

/-- Claim C9 counterexample: not every read of the gate pair happens under
the gate mutex — `http_status` reads `last_key_time` outside `tx_lock`. -/
theorem gate_pair_read_outside_lock :
    ¬ (∀ r ∈ http_status_reads ++ tail_check_reads, r.underLock = true) := by
  decide

/-- Claim C9 amended: the tail-hang check reads both components of the gate
pair under the mutex, and the status snapshot reads `is_transmitting` under
the mutex, but it reads `last_key_time` outside the mutex before acquiring
it; a `start_tx` running between the two reads makes the snapshot expose a
pair that never existed together. -/
theorem gate_pair_lock_discipline :
    (∀ r ∈ tail_check_reads, r.underLock = true)
    ∧ (⟨GateVar.txState, true⟩ ∈ http_status_reads)
    ∧ (⟨GateVar.lastKeyTime, false⟩ ∈ http_status_reads)
    ∧ (snapshotInterleaved gateInit 5 = (0, true))
    ∧ (snapshotInterleaved gateInit 5
        ≠ (gateInit.last_key_time, gateInit.is_transmitting))
    ∧ (snapshotInterleaved gateInit 5
        ≠ (((start_tx 5 gateInit).1).last_key_time,
           ((start_tx 5 gateInit).1).is_transmitting)) := by
  decide

/-- Claim C3: with tail hang 3/4 s, after a key request at t = 0, an unkey
request at t = 1/2 (whose check therefore fires at t = 5/4), and a key
request at t = 9/10, the check is a no-op: the only hardware actions ever
performed are the initial key-on and loop start, and the gate stays keyed
with `last_key_time = 9/10`. -/
theorem tail_hang_refresh_no_op :
    ((runEvents (3/4) [Ev.key 0, Ev.key (9/10), Ev.check (5/4)]).1
      = ⟨true, 9/10⟩)
    ∧ ((runEvents (3/4) [Ev.key 0, Ev.key (9/10), Ev.check (5/4)]).2
      = [((0 : ℚ), Act.hwKey), ((0 : ℚ), Act.startLoop)]) := by
  constructor <;>
    norm_num [runEvents, stepEv, start_tx, tail_check, gateInit]

/-- Claim C2: with tail hang 3/4 s, a key request at t = 0 and an unkey
request at t = 1 (whose check fires at t = 7/4): the hardware actions are
exactly key-on at 0, loop start at 0, and unkey at 7/4 — so the unkey fires
at 7/4 and never before — the gate ends idle, and at every time in
[0, 7/4) the gate is keyed. -/
theorem tail_hang_unkey_timing :
    ((runEvents (3/4) [Ev.key 0, Ev.check (7/4)]).2
      = [((0 : ℚ), Act.hwKey), ((0 : ℚ), Act.startLoop),
         ((7/4 : ℚ), Act.hwUnkey)])
    ∧ ((runEvents (3/4) [Ev.key 0, Ev.check (7/4)]).1 = ⟨false, 0⟩)
    ∧ (∀ t : ℚ, 0 ≤ t → t < 7/4 →
        (stateAt (3/4) [Ev.key 0, Ev.check (7/4)] t).is_transmitting = true) := by
  refine ⟨?_, ?_, ?_⟩
  · norm_num [runEvents, stepEv, start_tx, tail_check, gateInit]
  · norm_num [runEvents, stepEv, start_tx, tail_check, gateInit]
  · intro t h0 h74
    have hnot : ¬ ((7/4 : ℚ) ≤ t) := not_le.mpr h74
    have hfilter : List.filter (fun e => decide (Ev.time e ≤ t))
        [Ev.key 0, Ev.check (7/4)] = [Ev.key 0] := by
      simp [List.filter, Ev.time, h0, hnot]
    unfold stateAt
    rw [hfilter]
    norm_num [runEvents, stepEv, start_tx, gateInit]

/-- Witness for claim C2 at t = 1. -/
theorem tail_hang_unkey_timing_witness :
    (stateAt (3/4) [Ev.key 0, Ev.check (7/4)] 1).is_transmitting = true :=
  tail_hang_unkey_timing.2.2 1 (by norm_num) (by norm_num)

/-- Claim C8: the level estimate of an all-zero or empty block of int16
samples is exactly -100, and of a nonempty full-scale block (all samples
32767) exactly 0. -/
theorem dbfs_floor_and_full_scale (arrZ arrF : List Int)
    (hz : ∀ v ∈ arrZ, v = 0) (hf : ∀ v ∈ arrF, v = 32767) (hne : arrF ≠ []) :
    dbfs_from_int16 arrZ = -100 ∧ dbfs_from_int16 arrF = 0 := by
  constructor
  · by_cases harr : arrZ.length = 0
    · simp [dbfs_from_int16, harr]
    · have hsum : ((arrZ.map (fun (v : ℤ) => ((v : ℝ) * (v : ℝ)))).sum) = 0 := by
        apply List.sum_eq_zero
        intro x hx
        rcases List.mem_map.mp hx with ⟨v, hv, rfl⟩
        rw [hz v hv]
        norm_num
      simp [dbfs_from_int16, harr, hsum]
  · have hlen : arrF.length ≠ 0 := by
      simpa [List.length_eq_zero] using hne
    have hlenR : ((arrF.length : ℝ)) ≠ 0 := Nat.cast_ne_zero.mpr hlen
    have hmem : ∀ x ∈ arrF.map (fun (v : ℤ) => ((v : ℝ) * (v : ℝ))),
        x = (32767 : ℝ) * 32767 := by
      intro x hx
      rcases List.mem_map.mp hx with ⟨v, hv, rfl⟩
      rw [hf v hv]
      norm_num
    have hsum : (arrF.map (fun (v : ℤ) => ((v : ℝ) * (v : ℝ)))).sum
        = (arrF.length : ℝ) * ((32767 : ℝ) * 32767) := by
      rw [List.eq_replicate_of_mem hmem, List.sum_replicate, List.length_map]
      simp [nsmul_eq_mul]
    have hrms : Real.sqrt
        ((arrF.map (fun (v : ℤ) => ((v : ℝ) * (v : ℝ)))).sum / (arrF.length : ℝ))
        = 32767 := by
      rw [hsum, mul_div_cancel_left₀ _ hlenR,
        show ((32767 : ℝ) * 32767) = (32767 : ℝ) ^ 2 by ring]
      exact Real.sqrt_sq (by norm_num)
    simp only [dbfs_from_int16, hlen, if_false, hrms]
    rw [if_pos (by norm_num : (0 : ℝ) < 32767)]
    rw [div_self (by norm_num : (32767 : ℝ) ≠ 0), Real.logb_one, mul_zero]

/-- Witness for claim C8 at the empty block and a one-sample full-scale
block. -/
theorem dbfs_floor_and_full_scale_witness :
    dbfs_from_int16 [] = -100 ∧ dbfs_from_int16 [32767] = 0 :=
  dbfs_floor_and_full_scale [] [32767] (by simp) (by simp) (by simp)

end KrakenGate
